import Mathlib

/-!
# Verification of the NREL/routee-compass graph-builder and routing layer

Shallow embedding of the Python sources of NREL/routee-compass, together with
proofs and refutations of the specification's claims about them.

Conventions used throughout this development:

* Python `float` fields that may be NaN (`pd.isna` / `math.isnan` checks in the
  source) are embedded as `Option ℚ`, with `none` standing for NaN/NA.
* Python `int(x)` applied to a float truncates toward zero; it is embedded as
  `py_int` below.
* Python dictionaries keyed by strings or ints are embedded as association
  lists with `List.lookup`.
-/

/-- Python `int(x)` on a numeric value truncates toward zero:
`int(1.7) = 1`, `int(-1.7) = -1`. -/
def py_int (q : ℚ) : ℤ :=
  if 0 ≤ q then ⌊q⌋ else ⌈q⌉

namespace BuildRustMap

/-!
## Embedding of `src/scripts/build_rust_map.py` and
`src/nrel/routee/compass/rust/rust_map.py`

Both files contain the same link-construction logic (`build_speed`,
`build_link`, and the direction-splitting of `links_from_df` /
`build_rust_map_from_gdf`).  Fields that can be NA in the dataframe are
`Option ℚ` here.
-/

/-- TomTom direction code 2, the 'positive' direction (from → to). -/
def FROM_TO_DIRECTION : ℤ := 2

/-- TomTom direction code 3, the 'negative' direction (to → from). -/
def TO_FROM_DIRECTION : ℤ := 3

/-- Fallback speed constant `DEFAULT_SPEED_KPH = 40`. -/
def DEFAULT_SPEED_KPH : ℤ := 40

/-- The per-segment fields of a dataframe row that `build_speed` and the grade
encoding of `build_link` read.  `none` models a pandas NA / NaN value. -/
structure Row where
  netw_id : String
  free_flow_speed : Option ℚ
  speed_average_pos : Option ℚ
  speed_average_neg : Option ℚ
  mean_gradient_dec : Option ℚ
  deriving Repr, DecidableEq

/-- Embeds `build_speed(t, direction)` from `build_rust_map.py`: free-flow
speed if present, else the direction-appropriate average speed, else
`DEFAULT_SPEED_KPH`; a direction other than 2 or 3 raises `ValueError`. -/
def build_speed (t : Row) (direction : ℤ) : Except String ℤ :=
  match t.free_flow_speed with
  | some v => .ok (py_int v)
  | none =>
    if direction = TO_FROM_DIRECTION then
      match t.speed_average_neg with
      | some v => .ok (py_int v)
      | none => .ok DEFAULT_SPEED_KPH
    else if direction = FROM_TO_DIRECTION then
      match t.speed_average_pos with
      | some v => .ok (py_int v)
      | none => .ok DEFAULT_SPEED_KPH
    else
      .error "Bad direction value"

/-- The signed grade computed inside `build_link`: `grade = -t.mean_gradient_dec`
for the to-from (reverse) direction and `grade = t.mean_gradient_dec` for the
from-to (forward) direction.  Negating NaN keeps it NaN. -/
def build_link_grade (t : Row) (direction : ℤ) : Option ℚ :=
  match t.mean_gradient_dec with
  | none => none
  | some g => if direction = TO_FROM_DIRECTION then some (-g) else some g

/-- The grade encoding of `build_link`:
`grade_milli = 0 if pd.isna(grade) else int(grade * 1000)`. -/
def grade_milli (grade : Option ℚ) : ℤ :=
  match grade with
  | none => 0
  | some g => py_int (g * 1000)

/-- The milli-grade stored on the link emitted for `direction`. -/
def build_link_grade_milli (t : Row) (direction : ℤ) : ℤ :=
  grade_milli (build_link_grade t direction)

/-- A restriction table, embedding the pickled
`Dict[str, Dict[int, float]]` restriction lookups (outer key: external
segment id `netw_id`; inner key: direction code). -/
def RestrictionTable := List (String × List (ℤ × ℚ))

/-- Embeds the restriction-resolution pattern repeated in `build_link` for
weight, height, width and length restrictions:

```
wr = restrictions.get(t.netw_id)
if wr is None: r = None
else:
    if 1 in wr: r = transform(wr[1])
    elif direction in wr: r = transform(wr[direction])
    else: r = None
```

`transform` is `int(v * 2000)` for weight restrictions (tons to lbs) and
`int(v)` for the other three kinds. -/
def resolve_restriction (restrictions : Option RestrictionTable)
    (transform : ℚ → ℤ) (netw_id : String) (direction : ℤ) : Option ℤ :=
  match restrictions with
  | none => none
  | some tbl =>
    match tbl.lookup netw_id with
    | none => none
    | some wr =>
      match wr.lookup 1 with
      | some v => some (transform v)
      | none =>
        match wr.lookup direction with
        | some v => some (transform v)
        | none => none

/-- The transform applied to weight restrictions: `int(v * 2000)` (tons to lbs). -/
def weight_transform (v : ℚ) : ℤ := py_int (v * 2000)

/-- The transform applied to height/width/length restrictions: `int(v)`. -/
def plain_transform (v : ℚ) : ℤ := py_int v

/-- The per-row direction splitting of `links_from_df` (`build_rust_map.py`)
and `build_rust_map_from_gdf` (`rust_map.py`): rows with
`link_direction == 2` emit one forward link, rows with `link_direction == 3`
emit one reverse link, rows with `link_direction` in `[1, 9]` emit both, and
rows with any other direction code match none of the three dataframe filters
and emit nothing.  We record each emitted link by the direction code passed to
`build_link` for it (`2` = forward, `3` = reverse). -/
def emitted_directions (link_direction : ℤ) : List ℤ :=
  if link_direction = FROM_TO_DIRECTION then [FROM_TO_DIRECTION]
  else if link_direction = TO_FROM_DIRECTION then [TO_FROM_DIRECTION]
  else if link_direction = 1 ∨ link_direction = 9 then
    [TO_FROM_DIRECTION, FROM_TO_DIRECTION]
  else []

end BuildRustMap

namespace EdgelistTomTom

/-!
## Embedding of `src/scripts/compass_v2/build_compass_edgelist_tomtom.py`

`create_fwd_edge`, `create_rev_edge` and `create_edges_from_row`.
Geometry is a list of coordinate pairs; `Option` fields model NA/NaN.
-/

/-- Direction-code constants of the edgelist builder:
`FWD_REV_LINK, FORWARD_LINK, REVERSE_LINK, OTHER_LINK = 1, 2, 3, 9`. -/
def FWD_REV_LINK : ℤ := 1

/-- `FORWARD_LINK = 2`. -/
def FORWARD_LINK : ℤ := 2

/-- `REVERSE_LINK = 3`. -/
def REVERSE_LINK : ℤ := 3

/-- `OTHER_LINK = 9`. -/
def OTHER_LINK : ℤ := 9

/-- The fields of a network row read by `create_fwd_edge` / `create_rev_edge`.
`validity_direction` is a nullable Int64 column, so `Option ℤ`. -/
structure NetwRow where
  feat_id : String
  junction_id_from : String
  junction_id_to : String
  centimeters : ℚ
  routing_class : Option ℤ
  mean_gradient_dec : Option ℚ
  free_flow_speed : Option ℚ
  validity_direction : Option ℤ
  geom : List (ℚ × ℚ)
  deriving Repr, DecidableEq

/-- The dictionary produced for one directed edge. -/
structure Edge where
  edge_uuid : String
  src_vertex_uuid : String
  dst_vertex_uuid : String
  road_class : Option ℤ
  speed_free_flow_kph : Option ℚ
  distance_meters : ℚ
  grade : ℚ
  geometry : List (ℚ × ℚ)
  deriving Repr, DecidableEq

/-- Embeds `create_fwd_edge(row)`: the grade is
`0 if math.isnan(row['mean_gradient_dec']) else row['mean_gradient_dec']`
(kept as a raw decimal fraction, not milli-encoded), the distance is
`row['centimeters'] / 100.0`, and src/dst are junction from/to. -/
def create_fwd_edge (row : NetwRow) : Edge :=
  { edge_uuid := row.feat_id
    src_vertex_uuid := row.junction_id_from
    dst_vertex_uuid := row.junction_id_to
    road_class := row.routing_class
    speed_free_flow_kph := row.free_flow_speed
    distance_meters := row.centimeters / 100
    grade := match row.mean_gradient_dec with | none => 0 | some g => g
    geometry := row.geom }

/-- Embeds `create_rev_edge(row)`: src/dst swapped, grade negated
(`0` when NaN), geometry coordinate-reversed. -/
def create_rev_edge (row : NetwRow) : Edge :=
  { edge_uuid := row.feat_id
    src_vertex_uuid := row.junction_id_to
    dst_vertex_uuid := row.junction_id_from
    road_class := row.routing_class
    speed_free_flow_kph := row.free_flow_speed
    distance_meters := row.centimeters / 100
    grade := match row.mean_gradient_dec with | none => 0 | some g => -g
    geometry := row.geom.reverse }

/-- Embeds `create_edges_from_row(row)`:

```
try:
    if row['validity_direction'] == FWD_REV_LINK:
        return [create_fwd_edge(row), create_rev_edge(row)]
    if row['validity_direction'] == FORWARD_LINK or row['validity_direction'] == OTHER_LINK:
        return [create_fwd_edge(row)]
    if row['validity_direction'] == REVERSE_LINK:
        return [create_rev_edge(row)]
    raise TypeError()
except TypeError:
    return [create_fwd_edge(row)]
```

A missing (NA) direction raises `TypeError` in the comparison and an
unrecognized code reaches the explicit `raise`; both fall back to the forward
edge only. -/
def create_edges_from_row (row : NetwRow) : List Edge :=
  match row.validity_direction with
  | none => [create_fwd_edge row]
  | some d =>
    if d = FWD_REV_LINK then [create_fwd_edge row, create_rev_edge row]
    else if d = FORWARD_LINK ∨ d = OTHER_LINK then [create_fwd_edge row]
    else if d = REVERSE_LINK then [create_rev_edge row]
    else [create_fwd_edge row]

end EdgelistTomTom

namespace RoadNetworks

/-!
## Embedding of the `_compute_energy` implementations

`src/compass/road_network/tomtom_networkx.py` (clips predictions at 0),
`src/compass/road_network/osm_networkx.py` and
`src/compass/road_network/tomtom_road_network.py` (attach raw predictions).
The RouteeModel is opaque; we embed `model.predict` as a per-row function of
the three dataframe columns (speed, distance, grade).
-/

/-- `KPH_TO_MPH = 0.621371` from `tomtom_networkx.py` / `tomtom_road_network.py`. -/
def KPH_TO_MPH : ℚ := 621371 / 1000000

/-- `METERS_TO_MILES = 0.0006213712`. -/
def METERS_TO_MILES : ℚ := 6213712 / 10000000000

/-- The edge attributes read by the TomTom `_compute_energy` implementations. -/
structure TomTomEdgeAttrs where
  kph : ℚ
  meters : ℚ
  grade : ℚ
  deriving Repr, DecidableEq

/-- The edge attributes read by `OSMNetworkX._compute_energy`. -/
structure OsmEdgeAttrs where
  speed_mph : ℚ
  miles : ℚ
  grade : ℚ
  deriving Repr, DecidableEq

/-- The energy attached to one edge by `TomTomNetworkX._compute_energy`:
the dataframe row is `(kph * KPH_TO_MPH, meters * METERS_TO_MILES, grade)` and
the prediction is clipped at 0 from below (`model.predict(df).clip(0)`). -/
def tomtom_networkx_edge_energy (predict : ℚ → ℚ → ℚ → ℚ)
    (e : TomTomEdgeAttrs) : ℚ :=
  max (predict (e.kph * KPH_TO_MPH) (e.meters * METERS_TO_MILES) e.grade) 0

/-- The energy attached to one edge by `OSMNetworkX._compute_energy`:
`model.predict(df).to_dict()` with no clipping; the dataframe columns are the
raw `speed_mph`, `miles` and `grade` attributes. -/
def osm_networkx_edge_energy (predict : ℚ → ℚ → ℚ → ℚ)
    (e : OsmEdgeAttrs) : ℚ :=
  predict e.speed_mph e.miles e.grade

/-- The energy attached to one edge by `TomTomRoadNetwork._compute_energy`:
same dataframe as `TomTomNetworkX` but `model.predict(df).to_dict()` with no
clipping. -/
def tomtom_road_network_edge_energy (predict : ℚ → ℚ → ℚ → ℚ)
    (e : TomTomEdgeAttrs) : ℚ :=
  predict (e.kph * KPH_TO_MPH) (e.meters * METERS_TO_MILES) e.grade

/-!
## Embedding of `_get_nearest_node`

`TomTomNetworkX._get_nearest_node` and `OSMNetworkX._get_nearest_node` query a
`cKDTree` built over the node coordinate points and return
`self._nodes[i]` for the index `i` of the nearest point;
`TomTomRoadNetwork._get_nearest_node` asks an rtree for the single nearest
node.  All three return the spatially nearest node, unconditionally: there is
no distance cutoff and no failure branch.  We embed the nearest-point query as
a first-minimum fold over the node list (returning `none` only for an empty
node list, where the Python kdtree query itself would be meaningless).
-/

/-- Squared Euclidean distance between two coordinate points, the metric
minimized by `cKDTree.query`. -/
def sq_dist (a b : ℚ × ℚ) : ℚ :=
  (a.1 - b.1) ^ 2 + (a.2 - b.2) ^ 2

/-- Embeds `_get_nearest_node(coord)`: the id of the node whose point is
nearest to the query coordinate (first one in node order on ties). -/
def get_nearest_node (nodes : List (String × ℚ × ℚ)) (coord : ℚ × ℚ) :
    Option String :=
  match nodes with
  | [] => none
  | n :: rest =>
    some (rest.foldl
      (fun best m =>
        if sq_dist (m.2.1, m.2.2) coord < best.2 then (m.1, sq_dist (m.2.1, m.2.2) coord)
        else best)
      (n.1, sq_dist (n.2.1, n.2.2) coord)).1

end RoadNetworks

namespace HistoricSpeeds

/-!
## Embedding of `HistoricSpeedsTomTomStream.update`
(`src/compass/datastreams/historic_speeds_tomtom.py`, edge-update loop)

For each graph edge keyed by segment id `k` with attribute dict `d`, the loop:

* skips the edge if the downloaded speed data has no row with
  `segmentId == k`, or more than one;
* reads `harmonicAverageSpeed` and `speedLimit`, replacing the new speed by
  the speed limit when it is `< 1` or greater than the limit;
* then skips the edge if `d["meters"] == 0` (logged, attributes untouched,
  no travel-time division performed);
* otherwise overwrites `d["kph"]` and `d["minutes"]` from the new speed.

The unit constants come from `compass.utils.units` (absent from the sources;
their values are fixed by their names and the hours-from-km-over-kph use
site): `METERS_TO_KILOMETERS = 1/1000`, `HOURS_TO_MINUTES = 60`.
-/

/-- Modelled from the spec: `METERS_TO_KILOMETERS` comes from the
`compass.utils.units` module, which is absent from the sources; its value is
fixed by its name and the `new_time_hr = (meters * METERS_TO_KILOMETERS) /
new_speed_kph` use site. -/
def METERS_TO_KILOMETERS : ℚ := 1 / 1000

/-- Modelled from the spec: `HOURS_TO_MINUTES` comes from the absent
`compass.utils.units` module; its value is fixed by its name. -/
def HOURS_TO_MINUTES : ℚ := 60

/-- One row of the downloaded speed geodataframe, as read by the loop. -/
structure SpeedRecord where
  segmentId : String
  harmonicAverageSpeed : ℚ
  speedLimit : ℚ
  deriving Repr, DecidableEq

/-- The mutable attribute dict `d` of one graph edge. -/
structure EdgeAttrs where
  meters : ℚ
  kph : ℚ
  minutes : ℚ
  deriving Repr, DecidableEq

/-- The speed-defaulting step:
`if new_speed_kph < 1 or new_speed_kph > speed_limit_kph: new_speed_kph = speed_limit_kph`. -/
def new_speed (segment : SpeedRecord) : ℚ :=
  if segment.harmonicAverageSpeed < 1 ∨ segment.harmonicAverageSpeed > segment.speedLimit
  then segment.speedLimit
  else segment.harmonicAverageSpeed

/-- The body of the update loop for one edge with segment key `k` and
attributes `d`, given the downloaded speed rows `gdf`.  Returns the (possibly
unchanged) attribute dict. -/
def update_edge (gdf : List SpeedRecord) (k : String) (d : EdgeAttrs) : EdgeAttrs :=
  let segment := gdf.filter (fun r => r.segmentId = k)
  match segment with
  | [] => d
  | [r] =>
    if d.meters = 0 then d
    else
      let ns := new_speed r
      let new_time_hr := (d.meters * METERS_TO_KILOMETERS) / ns
      { d with kph := ns, minutes := new_time_hr * HOURS_TO_MINUTES }
  | _ :: _ :: _ => d

end HistoricSpeeds

namespace NxSearch

/-!
## Embedding of `TomTomNetworkX.shortest_path`
(`src/compass/road_network/tomtom_networkx.py`)

The graph is a `networkx.MultiDiGraph`: parallel edges between the same
ordered vertex pair are kept in insertion order.  `nx.shortest_path(G, o, d,
weight=w)` runs Dijkstra where the weight of a hop `u → v` is the minimum
over the parallel edges of attribute `w` (an edge missing the attribute
contributes the networkx default weight 1); it returns a path of minimal
total weight.  We embed that specification directly: enumerate the simple
paths and pick one of minimal cost (the first in enumeration order, which is
the unique minimal path in every concrete instance used below).

After the search, the source rebuilds the per-variable totals with

```
edge_data = list(self.G.get_edge_data(e[0], e[1]).values())[0]
```

i.e. from the FIRST stored parallel edge of each consecutive vertex pair,
not from the edge the search actually used.
-/

/-- One stored multigraph edge: endpoints plus its attribute dict. -/
structure MEdge where
  u : ℕ
  v : ℕ
  attrs : List (String × ℚ)
  deriving Repr, DecidableEq

/-- A `MultiDiGraph`: node list and edge list in insertion order. -/
structure MultiDiGraph where
  nodes : List ℕ
  edges : List MEdge
  deriving Repr, DecidableEq

/-- `G.get_edge_data(u, v)` as the list of attribute dicts of the parallel
edges from `u` to `v`, in storage order. -/
def edge_data_list (G : MultiDiGraph) (u v : ℕ) : List (List (String × ℚ)) :=
  (G.edges.filter (fun e => e.u == u && e.v == v)).map (·.attrs)

/-- The weight networkx reads from one edge dict: `d.get(w, 1)`. -/
def attr_weight (attrs : List (String × ℚ)) (w : String) : ℚ :=
  (attrs.lookup w).getD 1

/-- The Dijkstra hop weight `u → v`: the minimum of `attr_weight` over the
parallel edges, `none` when there is no edge. -/
def pair_weight (G : MultiDiGraph) (w : String) (u v : ℕ) : Option ℚ :=
  match edge_data_list G u v with
  | [] => none
  | a :: rest => some ((rest.map (attr_weight · w)).foldl min (attr_weight a w))

/-- Total weight of a vertex path under `pair_weight`. -/
def path_cost (G : MultiDiGraph) (w : String) : List ℕ → Option ℚ
  | [] => some 0
  | [_] => some 0
  | u :: v :: rest => do
    let x ← pair_weight G w u v
    let r ← path_cost G w (v :: rest)
    pure (x + r)

/-- All simple paths from `cur` to `dst` avoiding `visited`, with enough fuel
to cover every duplicate-free path. -/
def simple_paths (G : MultiDiGraph) (dst : ℕ) :
    ℕ → ℕ → List ℕ → List (List ℕ)
  | 0, _, _ => []
  | fuel + 1, cur, visited =>
    if cur = dst then [[cur]]
    else
      let nexts :=
        ((G.edges.filter
          (fun e => e.u == cur && !(visited.contains e.v) && e.v != cur)).map
            (·.v)).dedup
      nexts.flatMap fun n =>
        (simple_paths G dst fuel n (cur :: visited)).map (cur :: ·)

/-- First cost-minimal element of a list of (path, cost) pairs. -/
def pick_min (l : List (List ℕ × ℚ)) : Option (List ℕ × ℚ) :=
  l.foldl
    (fun acc pc =>
      match acc with
      | none => some pc
      | some b => if pc.2 < b.2 then some pc else some b)
    none

/-- Embeds `nx.shortest_path(G, o, d, weight=w)` on a multigraph: a vertex
path of minimal total weight from `o` to `d` (or `none` when unreachable). -/
def nx_shortest_path (G : MultiDiGraph) (w : String) (o d : ℕ) :
    Option (List ℕ) :=
  (pick_min (((simple_paths G d (G.nodes.length + 1) o []).filterMap
    (fun p => (path_cost G w p).map (p, ·))))).map (·.1)

/-- `list(self.G.get_edge_data(u, v).values())[0]`: the attribute dict of the
first stored parallel edge from `u` to `v`. -/
def first_edge_data (G : MultiDiGraph) (u v : ℕ) :
    Option (List (String × ℚ)) :=
  (edge_data_list G u v).head?

/-- The per-variable total the source computes for a returned route: for each
consecutive vertex pair it appends `edge_data[key]` of the FIRST stored
parallel edge and sums (`sum(distance)`, `sum(time)`, `sum(energy)` in
`shortest_path`). `none` models the `KeyError` on a missing attribute. -/
def route_total (G : MultiDiGraph) (key : String) : List ℕ → Option ℚ
  | [] => some 0
  | [_] => some 0
  | u :: v :: rest => do
    let d ← first_edge_data G u v
    let x ← d.lookup key
    let r ← route_total G key (v :: rest)
    pure (x + r)

/-- The attribute dict of the parallel edge the search actually traversed for
the hop `u → v`: the first edge attaining the minimal search weight `w`
(the edge whose weight entered the path cost). -/
def traversed_edge_data (G : MultiDiGraph) (w : String) (u v : ℕ) :
    Option (List (String × ℚ)) :=
  match edge_data_list G u v with
  | [] => none
  | a :: rest =>
    some (rest.foldl
      (fun best d => if attr_weight d w < attr_weight best w then d else best) a)

/-- The per-variable total over the links actually traversed by a route found
with search weight `w`. -/
def traversed_total (G : MultiDiGraph) (w key : String) : List ℕ → Option ℚ
  | [] => some 0
  | [_] => some 0
  | u :: v :: rest => do
    let d ← traversed_edge_data G w u v
    let x ← d.lookup key
    let r ← traversed_total G w key (v :: rest)
    pure (x + r)

end NxSearch

namespace WeightValidation

/-!
## Search-request weight validation (spec-modelled)

The weight-mapping query interface (`"weights": {"distance": 0, "time": 1,
...}` in `src/docs/examples/*.py`) is served by the `routee-compass` Rust
crate / `CompassAppWrapper`, whose source is not present under `src/` (only
its Python callers and binding layer are).  The validation below is therefore
modelled from the spec rather than translated from source.
-/

/-- The typed failure for an ambiguous optimization target. -/
inductive SearchError where
  | ambiguousWeightsError
  deriving Repr, DecidableEq

/-- A search request's weight mapping: variable name to weight. -/
def Weights := List (String × ℚ)

/-- Modelled from the spec: the pre-search weight validation of the search
engine, whose Rust implementation is absent from `src/`.  Spec §7:
"`AmbiguousWeightsError`: all requested weights are zero or the weight
mapping is empty — rejected before search." -/
def validate_weights (weights : List (String × ℚ)) :
    Except SearchError Unit :=
  if weights.isEmpty ∨ weights.all (fun kv => kv.2 == 0) then
    .error .ambiguousWeightsError
  else
    .ok ()

/-- Modelled from the spec: running a request first validates the weights and
only on success invokes the search proper (represented by an opaque function
`search`, so that rejection provably happens before any search work). -/
def run_request {α : Type} (weights : List (String × ℚ))
    (search : Unit → α) : Except SearchError α :=
  match validate_weights weights with
  | .error e => .error e
  | .ok _ => .ok (search ())

end WeightValidation

namespace SCC

/-!
## Embedding of the largest-SCC extraction step
(`src/scripts/get_tomtom_road_network.py`, `build_graph`:
`G = nx.MultiDiGraph(G.subgraph(max(nx.strongly_connected_components(G), key=len)))`)

A directed graph is a vertex list `V` and an edge list `E` (for the SCC step
parallel edges and attributes are irrelevant, so edges are bare ordered
pairs).  `nx.strongly_connected_components` yields the SCC classes; `max(...,
key=len)` picks the first class of maximal size and raises `ValueError`
("max() arg is an empty sequence") when the graph has no vertices; the
subgraph keeps exactly the edges with both endpoints retained.  The same step
is performed by `largest_scc` from the `compass_rust` crate in
`build_rust_map.py` / `rust_map.py`.

Reachability is computed by fuelled breadth-first saturation `reach_set`,
proved below to coincide with the reflexive-transitive closure of the edge
relation.
-/

/-- Successors of any vertex of `S` along edges of `E`. -/
def successors (E : List (ℕ × ℕ)) (S : List ℕ) : List ℕ :=
  (E.filter (fun e => decide (e.1 ∈ S))).map (·.2)

/-- One saturation step: add every successor of the current set. -/
def reach_step (E : List (ℕ × ℕ)) (S : List ℕ) : List ℕ :=
  (S ++ successors E S).dedup

/-- `n`-fold saturation from the single vertex `u`. -/
def reach_set (E : List (ℕ × ℕ)) (u : ℕ) : ℕ → List ℕ
  | 0 => [u]
  | n + 1 => reach_step E (reach_set E u n)

/-- Executable reachability: `E.length + 1` saturation steps suffice, since
the reached set only ever contains `u` and edge targets. -/
def reachableB (E : List (ℕ × ℕ)) (u v : ℕ) : Bool :=
  (reach_set E u (E.length + 1)).contains v

/-- Mutual reachability test. -/
def mutualB (E : List (ℕ × ℕ)) (u v : ℕ) : Bool :=
  reachableB E u v && reachableB E v u

/-- The strongly connected component of `v`: the retained vertices mutually
reachable with `v`, in vertex-list order. -/
def scc_of (V : List ℕ) (E : List (ℕ × ℕ)) (v : ℕ) : List ℕ :=
  V.filter (fun x => mutualB E v x)

/-- The SCC classes of the graph, each listed once
(`nx.strongly_connected_components`). -/
def components (V : List ℕ) (E : List (ℕ × ℕ)) : List (List ℕ) :=
  (V.map (scc_of V E)).dedup

/-- Python `max(l, key=len)`: the first element of maximal length, `none` on
an empty list (where Python raises `ValueError`). -/
def py_max_by_len (l : List (List ℕ)) : Option (List ℕ) :=
  l.foldl
    (fun acc c =>
      match acc with
      | none => some c
      | some b => if c.length > b.length then some c else some b)
    none

/-- The SCC-extraction step of `build_graph`: keep the largest SCC and the
edges internal to it; raise (`.error`) when the graph has no vertices. -/
def extract_largest_scc (V : List ℕ) (E : List (ℕ × ℕ)) :
    Except String (List ℕ × List (ℕ × ℕ)) :=
  match py_max_by_len (components V E) with
  | none => .error "max() arg is an empty sequence"
  | some c =>
    .ok (c, E.filter (fun e => decide (e.1 ∈ c) && decide (e.2 ∈ c)))

/-- The edge relation of the graph, for specification-level reachability. -/
def edge_rel (E : List (ℕ × ℕ)) (a b : ℕ) : Prop :=
  (a, b) ∈ E

/-- Specification-level reachability: reflexive-transitive closure of the
edge relation. -/
def reaches (E : List (ℕ × ℕ)) : ℕ → ℕ → Prop :=
  Relation.ReflTransGen (edge_rel E)

/-- Two vertices lie in the same SCC when each reaches the other. -/
def same_scc (E : List (ℕ × ℕ)) (u v : ℕ) : Prop :=
  reaches E u v ∧ reaches E v u

/-- Extensional equality of vertex lists. -/
def SEq (S T : List ℕ) : Prop :=
  ∀ x, x ∈ S ↔ x ∈ T

theorem mem_reach_step {E : List (ℕ × ℕ)} {S : List ℕ} {x : ℕ} :
    x ∈ reach_step E S ↔ x ∈ S ∨ ∃ e ∈ E, e.1 ∈ S ∧ e.2 = x := by
  simp [reach_step, successors, List.mem_dedup, List.mem_append, List.mem_map,
    List.mem_filter, eq_comm]

theorem subset_reach_step {E : List (ℕ × ℕ)} {S : List ℕ} {x : ℕ}
    (hx : x ∈ S) : x ∈ reach_step E S :=
  mem_reach_step.mpr (Or.inl hx)

theorem reach_set_mono_succ {E : List (ℕ × ℕ)} {u : ℕ} (n : ℕ) {x : ℕ}
    (hx : x ∈ reach_set E u n) : x ∈ reach_set E u (n + 1) :=
  subset_reach_step hx

theorem reach_set_mono {E : List (ℕ × ℕ)} {u : ℕ} {m n : ℕ} (h : m ≤ n)
    {x : ℕ} (hx : x ∈ reach_set E u m) : x ∈ reach_set E u n := by
  induction n with
  | zero => simpa [Nat.le_zero.mp h] using hx
  | succ n ih =>
    rcases Nat.lt_or_ge m (n + 1) with hlt | hge
    · exact reach_set_mono_succ n (ih (Nat.lt_succ_iff.mp hlt))
    · simpa [Nat.le_antisymm h hge] using hx

theorem self_mem_reach_set (E : List (ℕ × ℕ)) (u : ℕ) (n : ℕ) :
    u ∈ reach_set E u n :=
  reach_set_mono (Nat.zero_le n) (by simp [reach_set])

theorem reach_set_sound {E : List (ℕ × ℕ)} {u : ℕ} :
    ∀ {n x}, x ∈ reach_set E u n → reaches E u x := by
  intro n
  induction n with
  | zero =>
    intro x hx
    simp only [reach_set, List.mem_singleton] at hx
    exact hx ▸ Relation.ReflTransGen.refl
  | succ n ih =>
    intro x hx
    rcases mem_reach_step.mp hx with h | ⟨e, heE, h1, h2⟩
    · exact ih h
    · exact Relation.ReflTransGen.tail (ih h1)
        (show edge_rel E e.1 x by simpa [edge_rel, ← h2] using heE)

theorem reach_step_congr {E : List (ℕ × ℕ)} {S T : List ℕ} (h : SEq S T) :
    SEq (reach_step E S) (reach_step E T) := by
  intro x
  constructor <;> intro hx <;>
    rcases mem_reach_step.mp hx with h1 | ⟨e, heE, h1, h2⟩
  · exact mem_reach_step.mpr (Or.inl ((h x).mp h1))
  · exact mem_reach_step.mpr (Or.inr ⟨e, heE, (h e.1).mp h1, h2⟩)
  · exact mem_reach_step.mpr (Or.inl ((h x).mpr h1))
  · exact mem_reach_step.mpr (Or.inr ⟨e, heE, (h e.1).mpr h1, h2⟩)

theorem seq_persist {E : List (ℕ × ℕ)} {u : ℕ} {j : ℕ}
    (h : SEq (reach_set E u (j + 1)) (reach_set E u j)) :
    ∀ m, SEq (reach_set E u (j + m)) (reach_set E u j) := by
  intro m
  induction m with
  | zero => exact fun x => Iff.rfl
  | succ m ih =>
    have : SEq (reach_step E (reach_set E u (j + m)))
        (reach_step E (reach_set E u j)) := reach_step_congr ih
    intro x
    exact (this x).trans (h x)

theorem reach_set_subset_targets {E : List (ℕ × ℕ)} {u : ℕ} :
    ∀ {n x}, x ∈ reach_set E u n → x = u ∨ x ∈ E.map (·.2) := by
  intro n
  induction n with
  | zero =>
    intro x hx
    simp only [reach_set, List.mem_singleton] at hx
    exact Or.inl hx
  | succ n ih =>
    intro x hx
    rcases mem_reach_step.mp hx with h | ⟨e, heE, _, h2⟩
    · exact ih h
    · exact Or.inr (List.mem_map.mpr ⟨e, heE, h2⟩)

theorem card_grow {E : List (ℕ × ℕ)} {u : ℕ} :
    ∀ k, (∀ j < k, ¬ SEq (reach_set E u (j + 1)) (reach_set E u j)) →
      k + 1 ≤ (reach_set E u k).toFinset.card := by
  intro k
  induction k with
  | zero => intro _; simp [reach_set]
  | succ k ih =>
    intro h
    have hk := ih (fun j hj => h j (Nat.lt_succ_of_lt hj))
    have hsub : (reach_set E u k).toFinset ⊆ (reach_set E u (k + 1)).toFinset := by
      intro x hx
      exact List.mem_toFinset.mpr (reach_set_mono_succ k (List.mem_toFinset.mp hx))
    have hne : (reach_set E u k).toFinset ≠ (reach_set E u (k + 1)).toFinset := by
      intro heq
      refine h k (Nat.lt_succ_self k) (fun x => ?_)
      constructor
      · intro hx
        exact List.mem_toFinset.mp (heq ▸ List.mem_toFinset.mpr hx)
      · intro hx
        exact List.mem_toFinset.mp (heq ▸ List.mem_toFinset.mpr hx)
    have hss : (reach_set E u k).toFinset ⊂ (reach_set E u (k + 1)).toFinset :=
      ⟨hsub, fun hsup => hne (Finset.Subset.antisymm hsub hsup)⟩
    have := Finset.card_lt_card hss
    omega

theorem reach_set_card_le {E : List (ℕ × ℕ)} {u : ℕ} (n : ℕ) :
    (reach_set E u n).toFinset.card ≤ E.length + 1 := by
  have hsub : (reach_set E u n).toFinset ⊆ (u :: E.map (·.2)).toFinset := by
    intro x hx
    rcases reach_set_subset_targets (List.mem_toFinset.mp hx) with h | h
    · simp [h]
    · simp [List.mem_toFinset, h]
  calc (reach_set E u n).toFinset.card
      ≤ (u :: E.map (·.2)).toFinset.card := Finset.card_le_card hsub
    _ ≤ (u :: E.map (·.2)).length := List.toFinset_card_le _
    _ = E.length + 1 := by simp

theorem reach_set_saturates (E : List (ℕ × ℕ)) (u : ℕ) :
    SEq (reach_set E u (E.length + 1 + 1)) (reach_set E u (E.length + 1)) := by
  by_cases hstab : ∃ j < E.length + 1, SEq (reach_set E u (j + 1)) (reach_set E u j)
  · obtain ⟨j, hj, hseq⟩ := hstab
    have h1 := seq_persist hseq (E.length + 1 - j)
    have h2 := seq_persist hseq (E.length + 1 + 1 - j)
    have e1 : j + (E.length + 1 - j) = E.length + 1 := by omega
    have e2 : j + (E.length + 1 + 1 - j) = E.length + 1 + 1 := by omega
    rw [e1] at h1
    rw [e2] at h2
    intro x
    exact (h2 x).trans ((h1 x).symm)
  · push_neg at hstab
    have := card_grow (E := E) (u := u) (E.length + 1)
      (fun j hj => hstab j hj)
    have hle := reach_set_card_le (E := E) (u := u) (E.length + 1)
    omega

theorem reaches_mem_reach_set {E : List (ℕ × ℕ)} {u v : ℕ}
    (h : reaches E u v) : v ∈ reach_set E u (E.length + 1) := by
  induction h with
  | refl => exact self_mem_reach_set E u _
  | tail _ hedge ih =>
    rename_i b c _
    have hstep : c ∈ reach_step E (reach_set E u (E.length + 1)) :=
      mem_reach_step.mpr (Or.inr ⟨(b, c), hedge, ih, rfl⟩)
    exact (reach_set_saturates E u c).mp hstep

theorem reachableB_iff {E : List (ℕ × ℕ)} {u v : ℕ} :
    reachableB E u v = true ↔ reaches E u v := by
  constructor
  · intro h
    exact reach_set_sound (by simpa [reachableB] using h)
  · intro h
    simpa [reachableB] using reaches_mem_reach_set h

theorem mutualB_iff {E : List (ℕ × ℕ)} {u v : ℕ} :
    mutualB E u v = true ↔ same_scc E u v := by
  simp [mutualB, same_scc, Bool.and_eq_true, reachableB_iff]

theorem same_scc_symm {E : List (ℕ × ℕ)} {u v : ℕ} (h : same_scc E u v) :
    same_scc E v u :=
  ⟨h.2, h.1⟩

theorem same_scc_trans {E : List (ℕ × ℕ)} {u v w : ℕ}
    (h1 : same_scc E u v) (h2 : same_scc E v w) : same_scc E u w :=
  ⟨h1.1.trans h2.1, h2.2.trans h1.2⟩

/-- Key graph-theoretic fact behind the SCC invariant: between two vertices of
the same SCC there is a path every step of which stays inside that SCC. -/
theorem same_scc_restricted {E : List (ℕ × ℕ)} {u w : ℕ}
    (h : same_scc E u w) :
    Relation.ReflTransGen
      (fun a b => (a, b) ∈ E ∧ same_scc E u a ∧ same_scc E u b) u w := by
  have hwu : reaches E w u := h.2
  suffices haux : ∀ a, reaches E a w → same_scc E u a →
      Relation.ReflTransGen
        (fun a b => (a, b) ∈ E ∧ same_scc E u a ∧ same_scc E u b) a w by
    exact haux u h.1 ⟨Relation.ReflTransGen.refl, Relation.ReflTransGen.refl⟩
  intro a h1 h2
  induction h1 using Relation.ReflTransGen.head_induction_on with
  | refl => exact Relation.ReflTransGen.refl
  | head hac hcw ih =>
    rename_i a' c
    have hua : reaches E u a' := h2.1
    have huc : reaches E u c := hua.tail hac
    have hcu : reaches E c u := hcw.trans hwu
    have hc : same_scc E u c := ⟨huc, hcu⟩
    exact Relation.ReflTransGen.head ⟨hac, h2, hc⟩ (ih hc)

theorem py_max_by_len_spec :
    ∀ (l : List (List ℕ)) (acc : Option (List ℕ)) (c : List ℕ),
      (l.foldl
        (fun acc c =>
          match acc with
          | none => some c
          | some b => if c.length > b.length then some c else some b)
        acc) = some c →
      (c ∈ l ∨ acc = some c) ∧ (∀ c' ∈ l, c'.length ≤ c.length) ∧
        (∀ b, acc = some b → b.length ≤ c.length) := by
  intro l
  induction l with
  | nil =>
    intro acc c h
    simp only [List.foldl_nil] at h
    refine ⟨Or.inr h, by simp, fun b hb => ?_⟩
    rw [h] at hb
    obtain rfl : c = b := Option.some_inj.mp hb
    exact le_refl _
  | cons a l ih =>
    intro acc c h
    simp only [List.foldl_cons] at h
    rcases hacc : acc with _ | b
    · rw [hacc] at h
      obtain ⟨hmem, hall, hacc'⟩ := ih (some a) c h
      refine ⟨?_, ?_, by simp⟩
      · rcases hmem with hm | hm
        · exact Or.inl (List.mem_cons_of_mem a hm)
        · exact Or.inl (by simp [Option.some_inj.mp hm])
      · intro c' hc'
        rcases List.mem_cons.mp hc' with rfl | hc'
        · exact hacc' c' rfl
        · exact hall c' hc'
    · rw [hacc] at h
      have hred : (match some b with
          | none => some a
          | some b => if a.length > b.length then some a else some b) =
          if a.length > b.length then some a else some b := rfl
      rw [hred] at h
      by_cases hgt : a.length > b.length
      · rw [if_pos hgt] at h
        obtain ⟨hmem, hall, hacc'⟩ := ih (some a) c h
        refine ⟨?_, ?_, ?_⟩
        · rcases hmem with hm | hm
          · exact Or.inl (List.mem_cons_of_mem a hm)
          · exact Or.inl (by simp [Option.some_inj.mp hm])
        · intro c' hc'
          rcases List.mem_cons.mp hc' with rfl | hc'
          · exact hacc' c' rfl
          · exact hall c' hc'
        · intro b' hb'
          obtain rfl : b = b' := Option.some_inj.mp hb'
          have := hacc' a rfl
          omega
      · rw [if_neg hgt] at h
        obtain ⟨hmem, hall, hacc'⟩ := ih (some b) c h
        refine ⟨?_, ?_, ?_⟩
        · rcases hmem with hm | hm
          · exact Or.inl (List.mem_cons_of_mem a hm)
          · exact Or.inr hm
        · intro c' hc'
          rcases List.mem_cons.mp hc' with rfl | hc'
          · have := hacc' b rfl
            omega
          · exact hall c' hc'
        · intro b' hb'
          exact hacc' b' (hb' ▸ rfl)

theorem mem_scc_of {V : List ℕ} {E : List (ℕ × ℕ)} {v x : ℕ} :
    x ∈ scc_of V E v ↔ x ∈ V ∧ same_scc E v x := by
  simp [scc_of, List.mem_filter, mutualB_iff]

theorem mem_components {V : List ℕ} {E : List (ℕ × ℕ)} {c : List ℕ} :
    c ∈ components V E ↔ ∃ v ∈ V, scc_of V E v = c := by
  simp [components, List.mem_dedup, List.mem_map]

theorem components_eq_nil_iff {V : List ℕ} {E : List (ℕ × ℕ)} :
    components V E = [] ↔ V = [] := by
  constructor
  · intro h
    cases hV : V with
    | nil => rfl
    | cons a t =>
      exfalso
      have : scc_of V E a ∈ components V E :=
        mem_components.mpr ⟨a, by simp [hV], rfl⟩
      simp [h] at this
  · intro h
    simp [components, h]

theorem py_max_isSome :
    ∀ (l : List (List ℕ)) (b : List ℕ),
      (l.foldl
        (fun acc c =>
          match acc with
          | none => some c
          | some b => if c.length > b.length then some c else some b)
        (some b)).isSome = true := by
  intro l
  induction l with
  | nil => intro b; rfl
  | cons a t ih =>
    intro b
    simp only [List.foldl_cons]
    by_cases hgt : a.length > b.length
    · simpa [hgt] using ih a
    · simpa [hgt] using ih b

theorem extract_error_iff {V : List ℕ} {E : List (ℕ × ℕ)} :
    extract_largest_scc V E = .error "max() arg is an empty sequence" ↔
      V = [] := by
  constructor
  · intro h
    by_contra hV
    have hc : components V E ≠ [] := fun hcc => hV (components_eq_nil_iff.mp hcc)
    cases hcomp : components V E with
    | nil => exact hc hcomp
    | cons a t =>
      have hsome : (py_max_by_len (components V E)).isSome = true := by
        rw [hcomp]
        simpa [py_max_by_len] using py_max_isSome t a
      unfold extract_largest_scc at h
      cases hmax : py_max_by_len (components V E) with
      | none => rw [hmax] at hsome; simp at hsome
      | some c => rw [hmax] at h; simp at h
  · intro h
    subst h
    have : components ([] : List ℕ) E = [] := components_eq_nil_iff.mpr rfl
    unfold extract_largest_scc
    rw [this]
    rfl

/-- C1: after the Builder's SCC-extraction step
(`build_graph` in `src/scripts/get_tomtom_road_network.py`, and `largest_scc`
in `build_rust_map.py` / `rust_map.py`), the retained vertex set is an SCC
class of maximal size among the graph's SCC classes, every retained vertex
reaches every other retained vertex through retained links only, and the
extraction fails loudly (Python `ValueError` from `max()` on an empty
sequence) exactly when the resulting graph would be empty, i.e. when the
input graph has no vertices.  The well-formedness hypothesis `wf` states
that every edge endpoint is a graph vertex, which `networkx.add_edges_from`
guarantees by construction. -/
theorem scc_extraction_invariant (V : List ℕ) (E : List (ℕ × ℕ))
    (wf : ∀ e ∈ E, e.1 ∈ V ∧ e.2 ∈ V) :
    (extract_largest_scc V E = .error "max() arg is an empty sequence" ↔ V = [])
    ∧ (∀ c E', extract_largest_scc V E = .ok (c, E') →
        (∃ v₀ ∈ V, c = scc_of V E v₀)
        ∧ (∀ c' ∈ components V E, c'.length ≤ c.length)
        ∧ E' = E.filter (fun e => decide (e.1 ∈ c) && decide (e.2 ∈ c))
        ∧ (∀ u ∈ c, ∀ w ∈ c, reachableB E' u w = true)) := by
  refine ⟨extract_error_iff, ?_⟩
  intro c E' hok
  unfold extract_largest_scc at hok
  cases hmax : py_max_by_len (components V E) with
  | none => rw [hmax] at hok; simp at hok
  | some c0 =>
    rw [hmax] at hok
    simp only [Except.ok.injEq, Prod.mk.injEq] at hok
    obtain ⟨hc, hE'⟩ := hok
    subst hc
    obtain ⟨hmem, hall, _⟩ :=
      py_max_by_len_spec (components V E) none c0
        (by simpa [py_max_by_len] using hmax)
    have hcomp : c0 ∈ components V E := by
      rcases hmem with h | h
      · exact h
      · simp at h
    obtain ⟨v₀, hv₀V, hv₀⟩ := mem_components.mp hcomp
    refine ⟨⟨v₀, hv₀V, hv₀.symm⟩, hall, hE'.symm, ?_⟩
    intro u hu w hw
    have hu' := mem_scc_of.mp (hv₀ ▸ hu)
    have hw' := mem_scc_of.mp (hv₀ ▸ hw)
    have huw : same_scc E u w :=
      same_scc_trans (same_scc_symm hu'.2) hw'.2
    have hrestr := same_scc_restricted huw
    have hmono : Relation.ReflTransGen (edge_rel E') u w := by
      refine Relation.ReflTransGen.mono ?_ hrestr
      intro a b ⟨hab, hua, hub⟩
      have haV := (wf (a, b) hab).1
      have hbV := (wf (a, b) hab).2
      have hac : a ∈ c0 := hv₀ ▸ mem_scc_of.mpr ⟨haV, same_scc_trans hu'.2 hua⟩
      have hbc : b ∈ c0 := hv₀ ▸ mem_scc_of.mpr ⟨hbV, same_scc_trans hu'.2 hub⟩
      have : (a, b) ∈ E' := by
        rw [hE'.symm]
        simp [List.mem_filter, hab, hac, hbc]
      exact this
    exact reachableB_iff.mpr hmono

/-- Concrete instantiation of `scc_extraction_invariant`: on the graph with
vertices `[0, 1, 2]` and edges `[(0,1), (1,0), (1,2)]` the extraction keeps
the component `[0, 1]` with its two internal links, and `0` reaches `1`
through retained links. -/
theorem scc_extraction_invariant_witness :
    extract_largest_scc [0, 1, 2] [(0, 1), (1, 0), (1, 2)] =
      .ok ([0, 1], [(0, 1), (1, 0)])
    ∧ reachableB [(0, 1), (1, 0)] 0 1 = true := by
  have h := scc_extraction_invariant [0, 1, 2] [(0, 1), (1, 0), (1, 2)]
    (by decide)
  have hok : extract_largest_scc [0, 1, 2] [(0, 1), (1, 0), (1, 2)] =
      .ok ([0, 1], [(0, 1), (1, 0)]) := by rfl
  refine ⟨hok, ?_⟩
  exact (h.2 [0, 1] [(0, 1), (1, 0)] hok).2.2.2 0 (by decide) 1 (by decide)

end SCC

theorem py_int_neg (q : ℚ) : py_int (-q) = - py_int q := by
  rcases lt_trichotomy q 0 with hq | hq | hq
  · have h1 : 0 ≤ -q := by linarith
    have h2 : ¬ 0 ≤ q := not_le.mpr hq
    simp [py_int, h1, h2, Int.floor_neg]
  · subst hq; simp [py_int]
  · have h1 : ¬ 0 ≤ -q ∨ q = 0 := Or.inl (by simpa using hq)
    have h2 : 0 ≤ q := le_of_lt hq
    by_cases h3 : 0 ≤ -q
    · have : q = 0 := le_antisymm (by linarith) h2
      simp [this, py_int]
    · simp [py_int, h3, h2, Int.ceil_neg]

theorem py_int_abs_le (q : ℚ) : |(py_int q : ℚ)| ≤ |q| := by
  by_cases h : 0 ≤ q
  · rw [py_int, if_pos h]
    rw [abs_of_nonneg h, abs_of_nonneg (by exact_mod_cast Int.floor_nonneg.mpr h)]
    exact Int.floor_le q
  · rw [py_int, if_neg h]
    push_neg at h
    have hc1 : (⌈q⌉ : ℚ) ≤ 0 := by
      exact_mod_cast Int.ceil_le.mpr (show q ≤ ((0 : ℤ) : ℚ) by exact_mod_cast le_of_lt h)
    rw [abs_of_nonpos (le_of_lt h), abs_of_nonpos hc1]
    exact neg_le_neg (Int.le_ceil q)

theorem py_int_close (q : ℚ) : |q - (py_int q : ℚ)| < 1 := by
  by_cases h : 0 ≤ q
  · rw [py_int, if_pos h, abs_of_nonneg (by linarith [Int.floor_le q])]
    linarith [Int.lt_floor_add_one q]
  · rw [py_int, if_neg h, abs_of_nonpos (by linarith [Int.le_ceil q])]
    linarith [Int.ceil_lt_add_one q]

/-- C7 counterexample: the Builder does NOT round.  For a raw grade of
`0.0017`, `grade * 1000 = 1.7`; `int(1.7)` (the code,
`build_rust_map.py` / `rust_map.py` `build_link`) yields `1`, while the
claimed `round(grade_fraction * 1000)` yields `2`. -/
theorem grade_encoding_counterexample :
    BuildRustMap.build_link_grade_milli
      ⟨"seg", none, none, none, some (17 / 10000)⟩
      BuildRustMap.FROM_TO_DIRECTION = 1
    ∧ round ((17 / 10000 : ℚ) * 1000) = 2
    ∧ (1 : ℤ) ≠ 2 := by
  refine ⟨?_, ?_, by decide⟩
  · show py_int ((17 / 10000 : ℚ) * 1000) = 1
    norm_num [py_int]
  · rw [round_eq]
    norm_num

/-- C7 (amended): the Builder encodes grade as `int(grade_fraction * 1000)`,
truncation toward zero (within one milli-unit of the exact value and never
larger in magnitude), not rounding; it encodes 0 whenever the raw grade is
NaN, for both directions; the reverse link's milli-grade is the negation of
the forward link's.  The `compass_v2` edgelist builder
(`create_fwd_edge` / `create_rev_edge`) leaves grade as a raw fraction
(0 when NaN, negated for the reverse edge) and does not milli-encode at
all. -/
theorem grade_encoding_amended :
    (∀ (t : BuildRustMap.Row) (d : ℤ), t.mean_gradient_dec = none →
      BuildRustMap.build_link_grade_milli t d = 0)
    ∧ (∀ (t : BuildRustMap.Row) (g : ℚ), t.mean_gradient_dec = some g →
        BuildRustMap.build_link_grade_milli t BuildRustMap.TO_FROM_DIRECTION
          = - BuildRustMap.build_link_grade_milli t BuildRustMap.FROM_TO_DIRECTION
        ∧ |(BuildRustMap.build_link_grade_milli t BuildRustMap.FROM_TO_DIRECTION : ℚ)|
            ≤ |g * 1000|
        ∧ |g * 1000 -
            (BuildRustMap.build_link_grade_milli t BuildRustMap.FROM_TO_DIRECTION : ℚ)| < 1)
    ∧ (∀ row : EdgelistTomTom.NetwRow,
        (EdgelistTomTom.create_fwd_edge row).grade = row.mean_gradient_dec.getD 0
        ∧ (EdgelistTomTom.create_rev_edge row).grade
            = -(EdgelistTomTom.create_fwd_edge row).grade) := by
  refine ⟨?_, ?_, ?_⟩
  · intro t d h
    simp [BuildRustMap.build_link_grade_milli, BuildRustMap.build_link_grade, h,
      BuildRustMap.grade_milli]
  · intro t g h
    have hfwd : BuildRustMap.build_link_grade_milli t BuildRustMap.FROM_TO_DIRECTION
        = py_int (g * 1000) := by
      simp [BuildRustMap.build_link_grade_milli, BuildRustMap.build_link_grade, h,
        BuildRustMap.grade_milli, BuildRustMap.FROM_TO_DIRECTION,
        BuildRustMap.TO_FROM_DIRECTION]
    have hrev : BuildRustMap.build_link_grade_milli t BuildRustMap.TO_FROM_DIRECTION
        = py_int (-g * 1000) := by
      simp [BuildRustMap.build_link_grade_milli, BuildRustMap.build_link_grade, h,
        BuildRustMap.grade_milli, BuildRustMap.TO_FROM_DIRECTION]
    refine ⟨?_, ?_, ?_⟩
    · rw [hfwd, hrev]
      rw [show (-g * 1000 : ℚ) = -(g * 1000) by ring]
      exact py_int_neg (g * 1000)
    · rw [hfwd]; exact py_int_abs_le (g * 1000)
    · rw [hfwd]; exact py_int_close (g * 1000)
  · intro row
    cases h : row.mean_gradient_dec with
    | none => simp [EdgelistTomTom.create_fwd_edge, EdgelistTomTom.create_rev_edge, h]
    | some g => simp [EdgelistTomTom.create_fwd_edge, EdgelistTomTom.create_rev_edge, h]

/-- Concrete instantiation of `grade_encoding_amended`: a raw grade of
`-0.0023` is encoded as `-2` forward and `2` reverse, within one milli-unit
of the exact `-2.3`. -/
theorem grade_encoding_amended_witness :
    BuildRustMap.build_link_grade_milli
      ⟨"seg", none, none, none, some (-23 / 10000)⟩
      BuildRustMap.TO_FROM_DIRECTION
    = - BuildRustMap.build_link_grade_milli
      ⟨"seg", none, none, none, some (-23 / 10000)⟩
      BuildRustMap.FROM_TO_DIRECTION
    ∧ BuildRustMap.build_link_grade_milli
      ⟨"seg", none, none, none, some (0 : ℚ)⟩ BuildRustMap.FROM_TO_DIRECTION = 0 := by
  constructor
  · exact (grade_encoding_amended.2.1 ⟨"seg", none, none, none, some (-23 / 10000)⟩
      (-23 / 10000) rfl).1
  · norm_num [BuildRustMap.build_link_grade_milli, BuildRustMap.build_link_grade,
      BuildRustMap.grade_milli, py_int, BuildRustMap.FROM_TO_DIRECTION,
      BuildRustMap.TO_FROM_DIRECTION]

/-- C8: `build_speed` resolves each emitted link's speed by a three-tier
fallback, independently per link: the segment free-flow speed when present;
otherwise the direction-appropriate average (`speed_average_neg` for a
reverse link, direction 3; `speed_average_pos` for a forward link,
direction 2) when present; otherwise the fixed `DEFAULT_SPEED_KPH = 40`. -/
theorem build_speed_three_tier (t : BuildRustMap.Row) :
    (∀ v, t.free_flow_speed = some v →
      ∀ d, BuildRustMap.build_speed t d = .ok (py_int v))
    ∧ (t.free_flow_speed = none →
        (∀ v, t.speed_average_neg = some v →
          BuildRustMap.build_speed t BuildRustMap.TO_FROM_DIRECTION = .ok (py_int v))
        ∧ (t.speed_average_neg = none →
          BuildRustMap.build_speed t BuildRustMap.TO_FROM_DIRECTION
            = .ok BuildRustMap.DEFAULT_SPEED_KPH)
        ∧ (∀ v, t.speed_average_pos = some v →
          BuildRustMap.build_speed t BuildRustMap.FROM_TO_DIRECTION = .ok (py_int v))
        ∧ (t.speed_average_pos = none →
          BuildRustMap.build_speed t BuildRustMap.FROM_TO_DIRECTION
            = .ok BuildRustMap.DEFAULT_SPEED_KPH)) := by
  constructor
  · intro v hv d
    simp [BuildRustMap.build_speed, hv]
  · intro hff
    refine ⟨?_, ?_, ?_, ?_⟩
    · intro v hv
      simp [BuildRustMap.build_speed, hff, hv, BuildRustMap.TO_FROM_DIRECTION]
    · intro hv
      simp [BuildRustMap.build_speed, hff, hv, BuildRustMap.TO_FROM_DIRECTION]
    · intro v hv
      simp [BuildRustMap.build_speed, hff, hv, BuildRustMap.FROM_TO_DIRECTION,
        BuildRustMap.TO_FROM_DIRECTION]
    · intro hv
      simp [BuildRustMap.build_speed, hff, hv, BuildRustMap.FROM_TO_DIRECTION,
        BuildRustMap.TO_FROM_DIRECTION]

/-- Concrete instantiation of `build_speed_three_tier`: a row with no
free-flow speed and only a negative-direction average 30 gets `30` for its
reverse link and the default `40` for its forward link. -/
theorem build_speed_three_tier_witness :
    BuildRustMap.build_speed ⟨"seg", none, none, some 30, none⟩
      BuildRustMap.TO_FROM_DIRECTION = .ok (py_int 30)
    ∧ BuildRustMap.build_speed ⟨"seg", none, none, some 30, none⟩
      BuildRustMap.FROM_TO_DIRECTION = .ok BuildRustMap.DEFAULT_SPEED_KPH := by
  constructor
  · exact ((build_speed_three_tier ⟨"seg", none, none, some 30, none⟩).2 rfl).1 30 rfl
  · exact ((build_speed_three_tier ⟨"seg", none, none, some 30, none⟩).2 rfl).2.2.2 rfl

/-- C4: restriction resolution in `build_link` (`build_rust_map.py` and
`rust_map.py`): lookup by external segment id, then by direction code; a
code-1 (bidirectional) entry takes precedence over a direction-specific
entry for the same segment; a missing table, a missing segment entry, or a
segment entry containing neither code 1 nor the link's direction code all
yield `none` (unrestricted), which is distinct from every concrete
restriction value including zero. -/
theorem restriction_resolution (tr : ℚ → ℤ) (seg : String) (dir : ℤ) :
    (BuildRustMap.resolve_restriction none tr seg dir = none)
    ∧ (∀ tbl : BuildRustMap.RestrictionTable, List.lookup seg tbl = none →
        BuildRustMap.resolve_restriction (some tbl) tr seg dir = none)
    ∧ (∀ (tbl : BuildRustMap.RestrictionTable) (wr : List (ℤ × ℚ)),
        List.lookup seg tbl = some wr →
        (∀ v, List.lookup 1 wr = some v →
          BuildRustMap.resolve_restriction (some tbl) tr seg dir = some (tr v))
        ∧ (List.lookup 1 wr = none → ∀ v, List.lookup dir wr = some v →
          BuildRustMap.resolve_restriction (some tbl) tr seg dir = some (tr v))
        ∧ (List.lookup 1 wr = none → List.lookup dir wr = none →
          BuildRustMap.resolve_restriction (some tbl) tr seg dir = none))
    ∧ (∀ z : ℤ, (none : Option ℤ) ≠ some z) := by
  refine ⟨rfl, ?_, ?_, fun z h => by cases h⟩
  · intro tbl h
    simp [BuildRustMap.resolve_restriction, h]
  · intro tbl wr h
    refine ⟨?_, ?_, ?_⟩
    · intro v hv
      simp [BuildRustMap.resolve_restriction, h, hv]
    · intro h1 v hv
      simp [BuildRustMap.resolve_restriction, h, h1, hv]
    · intro h1 hd
      simp [BuildRustMap.resolve_restriction, h, h1, hd]

/-- Concrete instantiation of `restriction_resolution`: for a segment whose
entry carries both a bidirectional (code 1, value 10 tons) and a
direction-specific (code 3, value 5 tons) weight restriction, the reverse
link (direction 3) gets the bidirectional value `int(10 * 2000) = 20000`
lbs, and a segment with no entry resolves to `none`. -/
theorem restriction_resolution_witness :
    BuildRustMap.resolve_restriction (some [("a", [(1, 10), (3, 5)])])
      BuildRustMap.weight_transform "a" 3 = some 20000
    ∧ BuildRustMap.resolve_restriction (some [("a", [(1, 10), (3, 5)])])
      BuildRustMap.weight_transform "b" 3 = none := by
  constructor
  · have h := ((restriction_resolution BuildRustMap.weight_transform "a" 3).2.2.1
      [("a", [(1, 10), (3, 5)])] [(1, 10), (3, 5)] rfl).1 10 rfl
    rw [h]
    norm_num [BuildRustMap.weight_transform, py_int]
  · exact (restriction_resolution BuildRustMap.weight_transform "b" 3).2.1
      [("a", [(1, 10), (3, 5)])] rfl

/-- C2 counterexample: direction code 9 is NOT treated as bidirectional by the
edgelist builder — `create_edges_from_row` emits only the forward edge for
code 9 (same branch as code 2), not the claimed forward-and-reverse pair; and
the rust-map builders silently drop a segment with an unrecognized direction
code (here 5), instead of the claimed forward-link fallback. -/
theorem direction_splitting_counterexample :
    EdgelistTomTom.create_edges_from_row
        ⟨"f", "ja", "jb", 100, some 5, some (1 / 100), some 50, some 9,
          [(0, 0), (1, 1)]⟩
      = [EdgelistTomTom.create_fwd_edge
          ⟨"f", "ja", "jb", 100, some 5, some (1 / 100), some 50, some 9,
            [(0, 0), (1, 1)]⟩]
    ∧ (EdgelistTomTom.create_edges_from_row
        ⟨"f", "ja", "jb", 100, some 5, some (1 / 100), some 50, some 9,
          [(0, 0), (1, 1)]⟩).length ≠ 2
    ∧ BuildRustMap.emitted_directions 5 = [] := by
  refine ⟨rfl, ?_, rfl⟩
  simp [EdgelistTomTom.create_edges_from_row, EdgelistTomTom.FWD_REV_LINK,
    EdgelistTomTom.FORWARD_LINK, EdgelistTomTom.OTHER_LINK]

/-- C2 (amended): direction splitting differs between the two builders.  In
the edgelist builder (`create_edges_from_row`): code 1 emits the forward and
reverse edges, codes 2 and 9 emit the forward edge only, code 3 emits the
reverse edge only, and any other or missing code falls back to the forward
edge only (no segment dropped).  The forward edge runs junction-from to
junction-to and the reverse edge runs junction-to to junction-from with the
geometry coordinate-reversed and the grade negated.  In the rust-map builders
(`links_from_df` / `build_rust_map_from_gdf`): codes 1 and 9 emit both
directions, code 2 forward only, code 3 reverse only, and any other code
matches none of the dataframe filters, so the segment is silently dropped. -/
theorem direction_splitting_amended :
    (∀ row : EdgelistTomTom.NetwRow, row.validity_direction = some 1 →
      EdgelistTomTom.create_edges_from_row row
        = [EdgelistTomTom.create_fwd_edge row, EdgelistTomTom.create_rev_edge row])
    ∧ (∀ (row : EdgelistTomTom.NetwRow) (d : ℤ), row.validity_direction = some d →
        d = 2 ∨ d = 9 →
        EdgelistTomTom.create_edges_from_row row = [EdgelistTomTom.create_fwd_edge row])
    ∧ (∀ row : EdgelistTomTom.NetwRow, row.validity_direction = some 3 →
        EdgelistTomTom.create_edges_from_row row = [EdgelistTomTom.create_rev_edge row])
    ∧ (∀ (row : EdgelistTomTom.NetwRow) (d : ℤ), row.validity_direction = some d →
        d ≠ 1 → d ≠ 2 → d ≠ 3 → d ≠ 9 →
        EdgelistTomTom.create_edges_from_row row = [EdgelistTomTom.create_fwd_edge row])
    ∧ (∀ row : EdgelistTomTom.NetwRow, row.validity_direction = none →
        EdgelistTomTom.create_edges_from_row row = [EdgelistTomTom.create_fwd_edge row])
    ∧ (∀ row : EdgelistTomTom.NetwRow,
        (EdgelistTomTom.create_fwd_edge row).src_vertex_uuid = row.junction_id_from
        ∧ (EdgelistTomTom.create_fwd_edge row).dst_vertex_uuid = row.junction_id_to
        ∧ (EdgelistTomTom.create_rev_edge row).src_vertex_uuid = row.junction_id_to
        ∧ (EdgelistTomTom.create_rev_edge row).dst_vertex_uuid = row.junction_id_from
        ∧ (EdgelistTomTom.create_rev_edge row).geometry = row.geom.reverse
        ∧ (EdgelistTomTom.create_rev_edge row).grade
            = -(EdgelistTomTom.create_fwd_edge row).grade)
    ∧ (BuildRustMap.emitted_directions 1
          = [BuildRustMap.TO_FROM_DIRECTION, BuildRustMap.FROM_TO_DIRECTION]
        ∧ BuildRustMap.emitted_directions 9
          = [BuildRustMap.TO_FROM_DIRECTION, BuildRustMap.FROM_TO_DIRECTION]
        ∧ BuildRustMap.emitted_directions 2 = [BuildRustMap.FROM_TO_DIRECTION]
        ∧ BuildRustMap.emitted_directions 3 = [BuildRustMap.TO_FROM_DIRECTION])
    ∧ (∀ d : ℤ, d ≠ 1 → d ≠ 2 → d ≠ 3 → d ≠ 9 →
        BuildRustMap.emitted_directions d = []) := by
  refine ⟨?_, ?_, ?_, ?_, ?_, ?_, ⟨rfl, rfl, rfl, rfl⟩, ?_⟩
  · intro row h
    simp [EdgelistTomTom.create_edges_from_row, h, EdgelistTomTom.FWD_REV_LINK]
  · intro row d h hd
    rcases hd with rfl | rfl <;>
      simp [EdgelistTomTom.create_edges_from_row, h, EdgelistTomTom.FWD_REV_LINK,
        EdgelistTomTom.FORWARD_LINK, EdgelistTomTom.OTHER_LINK]
  · intro row h
    simp [EdgelistTomTom.create_edges_from_row, h, EdgelistTomTom.FWD_REV_LINK,
      EdgelistTomTom.FORWARD_LINK, EdgelistTomTom.OTHER_LINK,
      EdgelistTomTom.REVERSE_LINK]
  · intro row d h h1 h2 h3 h9
    simp [EdgelistTomTom.create_edges_from_row, h, EdgelistTomTom.FWD_REV_LINK,
      EdgelistTomTom.FORWARD_LINK, EdgelistTomTom.OTHER_LINK,
      EdgelistTomTom.REVERSE_LINK, h1, h2, h3, h9]
  · intro row h
    simp [EdgelistTomTom.create_edges_from_row, h]
  · intro row
    refine ⟨rfl, rfl, rfl, rfl, rfl, ?_⟩
    cases h : row.mean_gradient_dec with
    | none => simp [EdgelistTomTom.create_fwd_edge, EdgelistTomTom.create_rev_edge, h]
    | some g => simp [EdgelistTomTom.create_fwd_edge, EdgelistTomTom.create_rev_edge, h]
  · intro d h1 h2 h3 h9
    simp [BuildRustMap.emitted_directions, BuildRustMap.FROM_TO_DIRECTION,
      BuildRustMap.TO_FROM_DIRECTION, h1, h2, h3, h9]

/-- Concrete instantiation of `direction_splitting_amended`: a code-1 row
emits the forward/reverse pair, and an unmatched rust-map direction code `7`
emits nothing. -/
theorem direction_splitting_amended_witness :
    EdgelistTomTom.create_edges_from_row
        ⟨"f", "ja", "jb", 100, some 5, some (1 / 100), some 50, some 1,
          [(0, 0), (1, 1)]⟩
      = [EdgelistTomTom.create_fwd_edge
          ⟨"f", "ja", "jb", 100, some 5, some (1 / 100), some 50, some 1,
            [(0, 0), (1, 1)]⟩,
         EdgelistTomTom.create_rev_edge
          ⟨"f", "ja", "jb", 100, some 5, some (1 / 100), some 50, some 1,
            [(0, 0), (1, 1)]⟩]
    ∧ BuildRustMap.emitted_directions 7 = [] := by
  constructor
  · exact direction_splitting_amended.1
      ⟨"f", "ja", "jb", 100, some 5, some (1 / 100), some 50, some 1,
        [(0, 0), (1, 1)]⟩ rfl
  · exact direction_splitting_amended.2.2.2.2.2.2.2 7
      (by decide) (by decide) (by decide) (by decide)

/-- C3 counterexample: negative model predictions are NOT clipped to 0 in
every graph-store implementation.  With a model predicting `-5` for every
link, `OSMNetworkX._compute_energy` and `TomTomRoadNetwork._compute_energy`
attach `-5 < 0` as the edge energy attribute (no `.clip(0)` in either),
while `TomTomNetworkX._compute_energy` attaches `0`. -/
theorem energy_clip_counterexample :
    RoadNetworks.osm_networkx_edge_energy (fun _ _ _ => (-5 : ℚ)) ⟨30, 1, 0⟩ = -5
    ∧ RoadNetworks.tomtom_road_network_edge_energy (fun _ _ _ => (-5 : ℚ))
        ⟨50, 1000, 0⟩ = -5
    ∧ ((-5 : ℚ) < 0)
    ∧ RoadNetworks.tomtom_networkx_edge_energy (fun _ _ _ => (-5 : ℚ))
        ⟨50, 1000, 0⟩ = 0 := by
  refine ⟨rfl, rfl, by norm_num, ?_⟩
  simp [RoadNetworks.tomtom_networkx_edge_energy]

/-- C3 (amended): only `TomTomNetworkX._compute_energy` clips the model
prediction at 0 before attaching it as the per-link energy attribute (the
attached value is never negative, and equals the raw prediction whenever the
prediction is non-negative); `OSMNetworkX._compute_energy` and
`TomTomRoadNetwork._compute_energy` attach the raw, unclipped prediction,
which is negative whenever the model predicts a negative energy. -/
theorem energy_clip_amended :
    (∀ (p : ℚ → ℚ → ℚ → ℚ) (e : RoadNetworks.TomTomEdgeAttrs),
      0 ≤ RoadNetworks.tomtom_networkx_edge_energy p e)
    ∧ (∀ (p : ℚ → ℚ → ℚ → ℚ) (e : RoadNetworks.TomTomEdgeAttrs),
        0 ≤ p (e.kph * RoadNetworks.KPH_TO_MPH)
          (e.meters * RoadNetworks.METERS_TO_MILES) e.grade →
        RoadNetworks.tomtom_networkx_edge_energy p e
          = p (e.kph * RoadNetworks.KPH_TO_MPH)
              (e.meters * RoadNetworks.METERS_TO_MILES) e.grade)
    ∧ (∀ (p : ℚ → ℚ → ℚ → ℚ) (e : RoadNetworks.OsmEdgeAttrs),
        RoadNetworks.osm_networkx_edge_energy p e = p e.speed_mph e.miles e.grade)
    ∧ (∀ (p : ℚ → ℚ → ℚ → ℚ) (e : RoadNetworks.TomTomEdgeAttrs),
        RoadNetworks.tomtom_road_network_edge_energy p e
          = p (e.kph * RoadNetworks.KPH_TO_MPH)
              (e.meters * RoadNetworks.METERS_TO_MILES) e.grade) := by
  refine ⟨?_, ?_, fun p e => rfl, fun p e => rfl⟩
  · intro p e
    exact le_max_right _ _
  · intro p e h
    exact max_eq_left h

/-- Concrete instantiation of `energy_clip_amended`: a non-negative
prediction of `7` passes through `TomTomNetworkX._compute_energy`
unchanged, and every `TomTomNetworkX` energy value is non-negative even for
the always-negative model. -/
theorem energy_clip_amended_witness :
    RoadNetworks.tomtom_networkx_edge_energy (fun _ _ _ => (7 : ℚ)) ⟨50, 1000, 0⟩ = 7
    ∧ 0 ≤ RoadNetworks.tomtom_networkx_edge_energy (fun _ _ _ => (-5 : ℚ))
        ⟨50, 1000, 0⟩ := by
  constructor
  · exact energy_clip_amended.2.1 (fun _ _ _ => (7 : ℚ)) ⟨50, 1000, 0⟩ (by norm_num)
  · exact energy_clip_amended.1 (fun _ _ _ => (-5 : ℚ)) ⟨50, 1000, 0⟩

theorem nearest_fold_spec (coord : ℚ × ℚ) :
    ∀ (l : List (String × ℚ × ℚ)) (acc : String × ℚ),
      (l.foldl
        (fun best m =>
          if RoadNetworks.sq_dist (m.2.1, m.2.2) coord < best.2
          then (m.1, RoadNetworks.sq_dist (m.2.1, m.2.2) coord)
          else best) acc = acc
        ∨ ∃ m ∈ l,
            l.foldl
              (fun best m =>
                if RoadNetworks.sq_dist (m.2.1, m.2.2) coord < best.2
                then (m.1, RoadNetworks.sq_dist (m.2.1, m.2.2) coord)
                else best) acc
            = (m.1, RoadNetworks.sq_dist (m.2.1, m.2.2) coord))
      ∧ (l.foldl
          (fun best m =>
            if RoadNetworks.sq_dist (m.2.1, m.2.2) coord < best.2
            then (m.1, RoadNetworks.sq_dist (m.2.1, m.2.2) coord)
            else best) acc).2 ≤ acc.2
      ∧ ∀ m ∈ l,
          (l.foldl
            (fun best m =>
              if RoadNetworks.sq_dist (m.2.1, m.2.2) coord < best.2
              then (m.1, RoadNetworks.sq_dist (m.2.1, m.2.2) coord)
              else best) acc).2 ≤ RoadNetworks.sq_dist (m.2.1, m.2.2) coord := by
  intro l
  induction l with
  | nil => exact fun acc => ⟨Or.inl rfl, le_refl _, by simp⟩
  | cons n t ih =>
    intro acc
    simp only [List.foldl_cons]
    by_cases hlt : RoadNetworks.sq_dist (n.2.1, n.2.2) coord < acc.2
    · rw [if_pos hlt]
      obtain ⟨q1, q2, q3⟩ := ih (n.1, RoadNetworks.sq_dist (n.2.1, n.2.2) coord)
      refine ⟨?_, ?_, ?_⟩
      · rcases q1 with h | ⟨m, hm, h⟩
        · exact Or.inr ⟨n, List.mem_cons_self n t, h⟩
        · exact Or.inr ⟨m, List.mem_cons_of_mem n hm, h⟩
      · exact le_trans q2 (le_of_lt hlt)
      · intro m hm
        rcases List.mem_cons.mp hm with rfl | hm
        · exact q2
        · exact q3 m hm
    · rw [if_neg hlt]
      obtain ⟨q1, q2, q3⟩ := ih acc
      refine ⟨?_, q2, ?_⟩
      · rcases q1 with h | ⟨m, hm, h⟩
        · exact Or.inl h
        · exact Or.inr ⟨m, List.mem_cons_of_mem n hm, h⟩
      · intro m hm
        rcases List.mem_cons.mp hm with rfl | hm
        · exact le_trans q2 (not_lt.mp hlt)
        · exact q3 m hm

/-- C9 counterexample: there is no distance threshold and no failure path in
`_get_nearest_node` (`tomtom_networkx.py`, `osm_networkx.py`,
`tomtom_road_network.py`): a query coordinate about a million units away from
every vertex of a two-vertex graph is still snapped to the nearest vertex and
the search proceeds, instead of failing with an error as the claim states. -/
theorem nearest_node_counterexample :
    RoadNetworks.get_nearest_node [("a", 0, 0), ("b", 1, 1)] (1000000, 1000000)
      = some "b"
    ∧ RoadNetworks.sq_dist (1, 1) (1000000, 1000000) > 1000000 := by
  constructor
  · norm_num [RoadNetworks.get_nearest_node, RoadNetworks.sq_dist]
  · norm_num [RoadNetworks.sq_dist]

/-- C9 (amended): for every non-empty graph and every query coordinate,
`_get_nearest_node` returns the vertex nearest to the coordinate — always,
with no distance threshold: snapping never fails, however far the coordinate
lies from the graph. -/
theorem nearest_node_amended (nodes : List (String × ℚ × ℚ)) (coord : ℚ × ℚ)
    (hne : nodes ≠ []) :
    ∃ s, RoadNetworks.get_nearest_node nodes coord = some s
      ∧ ∃ la lo, (s, la, lo) ∈ nodes
        ∧ ∀ m ∈ nodes,
            RoadNetworks.sq_dist (la, lo) coord
              ≤ RoadNetworks.sq_dist (m.2.1, m.2.2) coord := by
  cases nodes with
  | nil => exact absurd rfl hne
  | cons n rest =>
    obtain ⟨q1, q2, q3⟩ :=
      nearest_fold_spec coord rest (n.1, RoadNetworks.sq_dist (n.2.1, n.2.2) coord)
    set r := rest.foldl
      (fun best m =>
        if RoadNetworks.sq_dist (m.2.1, m.2.2) coord < best.2
        then (m.1, RoadNetworks.sq_dist (m.2.1, m.2.2) coord)
        else best) (n.1, RoadNetworks.sq_dist (n.2.1, n.2.2) coord) with hr
    refine ⟨r.1, ?_, ?_⟩
    · simp [RoadNetworks.get_nearest_node, hr]
    · have hform : ∃ la lo, (r.1, la, lo) ∈ n :: rest
          ∧ r.2 = RoadNetworks.sq_dist (la, lo) coord := by
        rcases q1 with h | ⟨m, hm, h⟩
        · refine ⟨n.2.1, n.2.2, ?_, ?_⟩
          · rw [h]; exact List.mem_cons_self _ _
          · rw [h]
        · refine ⟨m.2.1, m.2.2, ?_, ?_⟩
          · rw [h]; exact List.mem_cons_of_mem n hm
          · rw [h]
      obtain ⟨la, lo, hmem, hval⟩ := hform
      refine ⟨la, lo, hmem, ?_⟩
      intro m hm
      rw [← hval]
      rcases List.mem_cons.mp hm with rfl | hm
      · exact q2
      · exact q3 m hm

/-- Concrete instantiation of `nearest_node_amended`: snapping on a
one-vertex graph succeeds for an arbitrary faraway coordinate. -/
theorem nearest_node_amended_witness :
    (RoadNetworks.get_nearest_node [("a", 0, 0)] (5, 5)).isSome = true := by
  obtain ⟨s, hs, _⟩ := nearest_node_amended [("a", 0, 0)] (5, 5) (by decide)
  rw [hs]
  rfl

/-- C10: in `HistoricSpeedsTomTomStream.update`, an edge whose stored
`meters` attribute is 0 is skipped: its `kph` and `minutes` (and every other
attribute) are left unchanged and no travel-time division is performed.
Likewise an edge whose segment id matches no row, or more than one row, of
the downloaded speed data is left unchanged.  Only an edge with exactly one
matching row and nonzero `meters` has `kph` and `minutes` rewritten (to the
defaulted new speed and the re-derived travel time), with `meters` itself
untouched. -/
theorem historic_update_zero_meters_skipped
    (gdf : List HistoricSpeeds.SpeedRecord) (k : String)
    (d : HistoricSpeeds.EdgeAttrs) :
    (d.meters = 0 → HistoricSpeeds.update_edge gdf k d = d)
    ∧ ((gdf.filter (fun r => r.segmentId = k)).length ≠ 1 →
        HistoricSpeeds.update_edge gdf k d = d)
    ∧ (∀ r, gdf.filter (fun r => r.segmentId = k) = [r] → d.meters ≠ 0 →
        HistoricSpeeds.update_edge gdf k d =
          { d with
            kph := HistoricSpeeds.new_speed r
            minutes := d.meters * HistoricSpeeds.METERS_TO_KILOMETERS /
              HistoricSpeeds.new_speed r * HistoricSpeeds.HOURS_TO_MINUTES }) := by
  refine ⟨?_, ?_, ?_⟩
  · intro hm
    unfold HistoricSpeeds.update_edge
    cases hseg : gdf.filter (fun r => r.segmentId = k) with
    | nil => rfl
    | cons r rest =>
      cases rest with
      | nil => simp [hm]
      | cons r2 rest2 => rfl
  · intro hlen
    unfold HistoricSpeeds.update_edge
    cases hseg : gdf.filter (fun r => r.segmentId = k) with
    | nil => rfl
    | cons r rest =>
      cases rest with
      | nil => exact absurd (by simp [hseg]) hlen
      | cons r2 rest2 => rfl
  · intro r hseg hm
    unfold HistoricSpeeds.update_edge
    rw [hseg]
    simp [hm]

/-- Concrete instantiation of `historic_update_zero_meters_skipped`: an edge
with `meters = 0` and a unique matching speed row keeps its original `kph`
and `minutes`, while the same edge with `meters = 2000` is rewritten. -/
theorem historic_update_zero_meters_skipped_witness :
    HistoricSpeeds.update_edge [⟨"s1", 50, 60⟩] "s1" ⟨0, 30, 7⟩ = ⟨0, 30, 7⟩
    ∧ HistoricSpeeds.update_edge [⟨"s1", 50, 60⟩] "s1" ⟨2000, 30, 7⟩
      = ⟨2000, 50, 24 / 10⟩ := by
  constructor
  · exact (historic_update_zero_meters_skipped [⟨"s1", 50, 60⟩] "s1" ⟨0, 30, 7⟩).1 rfl
  · have h := (historic_update_zero_meters_skipped [⟨"s1", 50, 60⟩] "s1"
      ⟨2000, 30, 7⟩).2.2 ⟨"s1", 50, 60⟩ (by rfl) (by norm_num)
    rw [h]
    have hns : HistoricSpeeds.new_speed ⟨"s1", 50, 60⟩ = 50 := by
      norm_num [HistoricSpeeds.new_speed]
    simp only [hns]
    norm_num [HistoricSpeeds.METERS_TO_KILOMETERS, HistoricSpeeds.HOURS_TO_MINUTES]

/-- C6: a search request whose weight mapping is empty or whose requested
weights are all zero is rejected with `AmbiguousWeightsError` before any
search is performed (the search continuation is never invoked, so the result
is the error for every possible search function).  The validation is
modelled from the spec because the weight-mapping search engine (the
`routee-compass` Rust crate behind `CompassAppWrapper`) is not present under
`src/`. -/
theorem ambiguous_weights_rejected {α : Type} (weights : List (String × ℚ))
    (search : Unit → α)
    (h : weights = [] ∨ ∀ kv ∈ weights, kv.2 = 0) :
    WeightValidation.run_request weights search
      = .error .ambiguousWeightsError := by
  have hcond : (weights.isEmpty ∨ weights.all (fun kv => kv.2 == 0)) := by
    rcases h with h | h
    · exact Or.inl (by simp [h])
    · refine Or.inr ?_
      rw [List.all_eq_true]
      intro kv hkv
      exact beq_iff_eq.mpr (h kv hkv)
  unfold WeightValidation.run_request WeightValidation.validate_weights
  rw [if_pos hcond]

/-- Concrete instantiation of `ambiguous_weights_rejected`: the empty weight
mapping and the all-zero mapping `{distance: 0, time: 0}` are both
rejected. -/
theorem ambiguous_weights_rejected_witness :
    WeightValidation.run_request [] (fun _ => (0 : ℕ))
      = .error .ambiguousWeightsError
    ∧ WeightValidation.run_request [("distance", (0 : ℚ)), ("time", 0)]
      (fun _ => (0 : ℕ)) = .error .ambiguousWeightsError := by
  constructor
  · exact ambiguous_weights_rejected [] (fun _ => (0 : ℕ)) (Or.inl rfl)
  · exact ambiguous_weights_rejected [("distance", (0 : ℚ)), ("time", 0)]
      (fun _ => (0 : ℕ))
      (Or.inr (by
        intro kv hkv
        simp only [List.mem_cons] at hkv
        rcases hkv with h | h | h
        · simp [h]
        · simp [h]
        · simp at h))

theorem edge_data_list_len_le_one (G : NxSearch.MultiDiGraph)
    (hp : G.edges.Pairwise (fun e1 e2 => ¬(e1.u = e2.u ∧ e1.v = e2.v)))
    (u v : ℕ) : (NxSearch.edge_data_list G u v).length ≤ 1 := by
  unfold NxSearch.edge_data_list
  rw [List.length_map]
  suffices h : ∀ l : List NxSearch.MEdge,
      l.Pairwise (fun e1 e2 => ¬(e1.u = e2.u ∧ e1.v = e2.v)) →
      (l.filter (fun e => e.u == u && e.v == v)).length ≤ 1 from h G.edges hp
  intro l hl
  induction l with
  | nil => simp
  | cons e t ih =>
    rw [List.pairwise_cons] at hl
    by_cases hpe : (e.u == u && e.v == v) = true
    · rw [List.filter_cons, if_pos hpe]
      have hnil : t.filter (fun e => e.u == u && e.v == v) = [] := by
        rw [List.filter_eq_nil_iff]
        intro a ha
        have hne := hl.1 a ha
        simp only [Bool.and_eq_true, beq_iff_eq] at hpe ⊢
        intro hcon
        exact hne ⟨hpe.1.trans hcon.1.symm, hpe.2.trans hcon.2.symm⟩
      rw [hnil]
      simp
    · rw [List.filter_cons, if_neg hpe]
      exact ih hl.2

theorem route_total_eq_traversed (G : NxSearch.MultiDiGraph)
    (h : ∀ u v, (NxSearch.edge_data_list G u v).length ≤ 1) (key w : String) :
    ∀ r, NxSearch.route_total G key r = NxSearch.traversed_total G w key r
  | [] => rfl
  | [_] => rfl
  | u :: v :: rest => by
    have ih := route_total_eq_traversed G h key w (v :: rest)
    have hed : NxSearch.first_edge_data G u v = NxSearch.traversed_edge_data G w u v := by
      have hlen := h u v
      cases hc : NxSearch.edge_data_list G u v with
      | nil => simp [NxSearch.first_edge_data, NxSearch.traversed_edge_data, hc]
      | cons a t =>
        cases t with
        | nil => simp [NxSearch.first_edge_data, NxSearch.traversed_edge_data, hc]
        | cons b t2 =>
          rw [hc] at hlen
          simp at hlen
    simp only [NxSearch.route_total, NxSearch.traversed_total]
    rw [hed, ih]

/-- C5 counterexample: the per-variable totals are NOT taken from the links
actually traversed.  On a two-vertex multigraph with two parallel edges
`0 → 1` of time 5 (stored first) and time 3 (stored second), the
time-weighted search returns the route `[0, 1]` whose traversed link is the
time-3 edge, but the reconstruction sums the FIRST stored parallel edge
(`list(get_edge_data(u, v).values())[0]`), reporting a time total of 5. -/
theorem path_totals_counterexample :
    NxSearch.nx_shortest_path
        ⟨[0, 1], [⟨0, 1, [("minutes", 5), ("meters", 10)]⟩,
                  ⟨0, 1, [("minutes", 3), ("meters", 10)]⟩]⟩ "minutes" 0 1
      = some [0, 1]
    ∧ NxSearch.route_total
        ⟨[0, 1], [⟨0, 1, [("minutes", 5), ("meters", 10)]⟩,
                  ⟨0, 1, [("minutes", 3), ("meters", 10)]⟩]⟩ "minutes" [0, 1]
      = some 5
    ∧ NxSearch.traversed_total
        ⟨[0, 1], [⟨0, 1, [("minutes", 5), ("meters", 10)]⟩,
                  ⟨0, 1, [("minutes", 3), ("meters", 10)]⟩]⟩ "minutes" "minutes"
        [0, 1]
      = some 3
    ∧ (5 : ℚ) ≠ 3 := by
  refine ⟨rfl, ?_, ?_, by norm_num⟩
  · simp [NxSearch.route_total, NxSearch.first_edge_data, NxSearch.edge_data_list]
  · simp [NxSearch.traversed_total, NxSearch.traversed_edge_data,
      NxSearch.edge_data_list, NxSearch.attr_weight]
    norm_num

/-- C5 (amended): the reconstruction sums the FIRST stored parallel edge of
each consecutive vertex pair; whenever the multigraph has at most one edge
per ordered vertex pair this coincides with the links actually traversed, so
the per-variable totals then equal the sums over the traversed links.  The
concrete scenario holds: on a two-vertex graph whose one bidirectional
segment has time 100 (and distance 1000), the time-weighted search returns
the 2-vertex route `[0, 1]` with time total 100. -/
theorem path_totals_amended :
    (∀ G : NxSearch.MultiDiGraph,
      G.edges.Pairwise (fun e1 e2 => ¬(e1.u = e2.u ∧ e1.v = e2.v)) →
      ∀ key w r, NxSearch.route_total G key r = NxSearch.traversed_total G w key r)
    ∧ NxSearch.nx_shortest_path
        ⟨[0, 1], [⟨0, 1, [("meters", 1000), ("minutes", 100)]⟩,
                  ⟨1, 0, [("meters", 1000), ("minutes", 100)]⟩]⟩ "minutes" 0 1
      = some [0, 1]
    ∧ ([0, 1] : List ℕ).length = 2
    ∧ NxSearch.route_total
        ⟨[0, 1], [⟨0, 1, [("meters", 1000), ("minutes", 100)]⟩,
                  ⟨1, 0, [("meters", 1000), ("minutes", 100)]⟩]⟩ "minutes" [0, 1]
      = some 100 := by
  refine ⟨?_, rfl, rfl, ?_⟩
  · intro G hp key w r
    exact route_total_eq_traversed G (edge_data_list_len_le_one G hp) key w r
  · simp [NxSearch.route_total, NxSearch.first_edge_data, NxSearch.edge_data_list,
      List.lookup]

/-- Concrete instantiation of `path_totals_amended`: on the two-vertex
bidirectional scenario graph (which has no parallel edges) the reconstructed
time total coincides with the traversed-link time total. -/
theorem path_totals_amended_witness :
    NxSearch.route_total
        ⟨[0, 1], [⟨0, 1, [("meters", 1000), ("minutes", 100)]⟩,
                  ⟨1, 0, [("meters", 1000), ("minutes", 100)]⟩]⟩ "minutes" [0, 1]
      = NxSearch.traversed_total
        ⟨[0, 1], [⟨0, 1, [("meters", 1000), ("minutes", 100)]⟩,
                  ⟨1, 0, [("meters", 1000), ("minutes", 100)]⟩]⟩ "minutes" "minutes"
        [0, 1] :=
  path_totals_amended.1
    ⟨[0, 1], [⟨0, 1, [("meters", 1000), ("minutes", 100)]⟩,
              ⟨1, 0, [("meters", 1000), ("minutes", 100)]⟩]⟩
    (by simp) "minutes" "minutes" [0, 1]
